import Mathlib

/-!
Verification development for the stop-quote calculator (`src/main.py`).

The program ingests a broker holdings/cost report and an open-orders report,
correlates them by ticker symbol, and computes a recommended trailing stop
price per holding.  This file gives a shallow embedding of the core pipeline:

* Python `re` patterns are embedded as an explicit backtracking matcher
  (`matchRE`) over `List Char`, faithful to `re.match` semantics (anchored at
  the start, greedy quantifiers, leftmost backtracking, `.` excludes newline);
  every pattern of the source is transcribed token by token.
* Python floats are idealised as `ℚ`; `round` is round-half-to-even (`rhe`,
  `pyRound`), `int()` is truncation toward zero (`pyInt`), `float(str)` is
  `pyFloat` (returning `none` on a `ValueError`).
* The per-symbol dict of dicts becomes `StockDict`, an insertion-ordered
  association list of `StockRecord`s.  A Python dict value that can be a
  float, the empty-string sentinel, or an absent key is modelled by `PyVal`
  (`num` / `blank` / `missing`).
* Process-terminating failures (`sys.exit(1)`, uncaught `KeyError` or
  `ValueError`) are explicit error results of the extraction functions.
-/

/-! ### Rounding primitives (Python `round` and `int`) -/

/-- Round half to even on `ℚ`, the idealisation of Python `round(x)`. -/
def rhe (q : ℚ) : ℤ :=
  if q - ⌊q⌋ < 1/2 then ⌊q⌋
  else if 1/2 < q - ⌊q⌋ then ⌊q⌋ + 1
  else if ⌊q⌋ % 2 = 0 then ⌊q⌋ else ⌊q⌋ + 1

/-- Python `round(x, n)` for `n` decimal places, idealised over `ℚ`. -/
def pyRound (q : ℚ) (n : ℕ) : ℚ := (rhe (q * 10 ^ n) : ℚ) / 10 ^ n

/-- Python `int(x)`: truncation toward zero. -/
def pyInt (q : ℚ) : ℤ := if q < 0 then ⌈q⌉ else ⌊q⌋

/-! ### String helpers (`re.sub` with literal patterns, `float(...)`) -/

/-- Fuel-driven worker for `replaceAll`; the fuel is the length of the input,
which bounds the number of steps since each step consumes at least one
character (the guard rejects an empty pattern). -/
def replaceAllAux (pat rep : List Char) : Nat → List Char → List Char
  | 0, s => s
  | fuel + 1, s =>
    if pat ≠ [] ∧ pat.isPrefixOf s then rep ++ replaceAllAux pat rep fuel (s.drop pat.length)
    else
      match s with
      | [] => []
      | c :: cs => c :: replaceAllAux pat rep fuel cs

/-- `re.sub(pat, rep, s)` for a literal (metacharacter-free) pattern:
left-to-right, non-overlapping replacement of every occurrence. -/
def replaceAll (pat rep s : List Char) : List Char := replaceAllAux pat rep s.length s

/-- The sentinel normalisation done on every holdings line before matching:
`re.sub('-- --', '+$0.0 +0.0%', line)` then `re.sub('--', '$0.0', line)`. -/
def normalizeLine (s : List Char) : List Char :=
  replaceAll ("--".toList) ("$0.0".toList)
    (replaceAll ("-- --".toList) ("+$0.0 +0.0%".toList) s)

/-- `re.sub(',', '', s)`: strip thousands separators before `float`. -/
def stripCommas (s : List Char) : List Char := replaceAll ([',']) ([]) s

/-- Value of a string of decimal digits. -/
def digitsVal (s : List Char) : Nat :=
  s.foldl (fun a c => a * 10 + (c.toNat - '0'.toNat)) 0

/-- Decimal-digit character. -/
def isDigitC (c : Char) : Bool := decide ('0' ≤ c) && decide (c ≤ '9')

/-- Split a numeric string into sign, integer digits and fraction digits;
`none` when the string is not of the shape `[+-]?digits[.digits]?` with at
least one digit (Python `float` would raise `ValueError`). -/
def splitNum (s : List Char) : Option (Bool × List Char × List Char) :=
  let neg : Bool := match s with
    | '-' :: _ => true
    | _ => false
  let rest := match s with
    | '+' :: t => t
    | '-' :: t => t
    | t => t
  let ip := rest.takeWhile isDigitC
  match rest.drop ip.length with
  | [] => if ip = [] then none else some (neg, ip, [])
  | '.' :: t =>
    let fp := t.takeWhile isDigitC
    if t.drop fp.length ≠ [] then none
    else if ip = [] ∧ fp = [] then none
    else some (neg, ip, fp)
  | _ => none

/-- Python `float(s)` on the numeric shapes the program produces, as `ℚ`;
`none` models an uncaught `ValueError`. -/
def pyFloat (s : List Char) : Option ℚ :=
  (splitNum s).map fun t =>
    (if t.1 then (-1 : ℚ) else 1) * ((digitsVal (t.2.1 ++ t.2.2) : ℚ) / 10 ^ t.2.2.length)

/-! ### A backtracking regex matcher

Quantifiers in the source patterns apply only to single-character classes, so
the embedding restricts `?`, `*` and `{lo,hi}` to character classes; capture
groups wrap arbitrary subpatterns.  Greedy quantifiers try the longest
consumption first and backtrack, exactly as Python's `re` does. -/

/-- Captured groups: group index paired with the consumed characters. -/
abbrev Caps := List (Nat × List Char)

/-- Regular expressions as used by the source patterns. -/
inductive RE where
  | eps : RE
  | cls : (Char → Bool) → RE
  | seq : RE → RE → RE
  | opt : (Char → Bool) → RE
  | star : (Char → Bool) → RE
  | rep : (Char → Bool) → Nat → Nat → RE
  | group : Nat → RE → RE

/-- Try consuming `lo + e`, `lo + e - 1`, …, `lo` characters (longest first),
returning the first continuation success. -/
def tryRange (s : List Char) (caps : Caps) (k : List Char → Caps → Option Caps)
    (lo : Nat) : Nat → Option Caps
  | 0 => k (s.drop lo) caps
  | e + 1 =>
    match k (s.drop (lo + e + 1)) caps with
    | some r => some r
    | none => tryRange s caps k lo e

/-- Length of the maximal prefix of `s` satisfying `p`. -/
def starCount (p : Char → Bool) (s : List Char) : Nat := (s.takeWhile p).length

/-- Continuation-passing matcher; on success the continuation receives the
remaining input and the captures collected so far. -/
def matchRE : RE → List Char → Caps → (List Char → Caps → Option Caps) → Option Caps
  | .eps, s, caps, k => k s caps
  | .cls p, s, caps, k =>
    match s with
    | [] => none
    | c :: cs => if p c then k cs caps else none
  | .seq a b, s, caps, k => matchRE a s caps (fun s' caps' => matchRE b s' caps' k)
  | .opt p, s, caps, k =>
    match s with
    | [] => k s caps
    | c :: cs =>
      if p c then
        match k cs caps with
        | some r => some r
        | none => k s caps
      else k s caps
  | .star p, s, caps, k => tryRange s caps k 0 (starCount p s)
  | .rep p lo hi, s, caps, k =>
    let m := min (starCount p s) hi
    if m < lo then none else tryRange s caps k lo (m - lo)
  | .group n a, s, caps, k =>
    matchRE a s caps (fun s' caps' => k s' ((n, s.take (s.length - s'.length)) :: caps'))

/-- Python `re.match`: anchored at the start of the string, the end is free. -/
def reMatch (r : RE) (s : List Char) : Option Caps :=
  matchRE r s [] (fun _ caps => some caps)

/-- `m.group(n)` of a successful match. -/
def group? (n : Nat) (caps : Caps) : Option (List Char) :=
  (caps.find? (fun x => decide (x.1 = n))).map (·.2)

/-! ### Character classes of the source patterns -/

/-- `[A-Z]`. -/
def isUpperC (c : Char) : Bool := decide ('A' ≤ c) && decide (c ≤ 'Z')

/-- `\s` (ASCII whitespace, as matched by Python on these inputs). -/
def isSpaceC (c : Char) : Bool :=
  decide (c = ' ') || decide (c = '\t') || decide (c = '\n') || decide (c = '\r') ||
  decide (c = '\x0b') || decide (c = '\x0c')

/-- `.`: any character except a newline. -/
def isAnyC (c : Char) : Bool := decide (c ≠ '\n')

/-- `[0-9,]`. -/
def isDigitComma (c : Char) : Bool := isDigitC c || decide (c = ',')

/-- `[+-]`. -/
def isSignC (c : Char) : Bool := decide (c = '+') || decide (c = '-')

/-- A literal character. -/
def chr (c : Char) : RE := .cls (fun x => decide (x = c))

/-- Sequence of regexes. -/
def seqs (l : List RE) : RE := l.foldr .seq .eps

/-- A literal string. -/
def lits (s : String) : RE := seqs (s.toList.map chr)

/-! ### The four source patterns, transcribed token by token -/

/-- `r_unit_cost` of `extract_stocks`:
`"([A-Z]{1,4})\s?!?".."[+-]?\$\d+\.[0-9]{2,4} [+-]?\d+\.[0-9]{2,4}%".."[+-]?\$[0-9,]+\.?\d* ([+-]?\d+\.?\d*)%".."[A-Z].*".."(\d*.?\d*)".."\$[0-9,]+\.?\d*".."\$([0-9,]+\.?\d*)"`
(symbol, day price, unrealized gain with captured percent, description,
quantity, unit cost, last price). -/
def rUnitCost : RE := seqs [
  chr '"', .group 1 (.rep isUpperC 1 4), .opt isSpaceC, .opt (fun c => decide (c = '!')),
    chr '"', .cls isAnyC, .cls isAnyC,
  chr '"', .opt isSignC, chr '$', .cls isDigitC, .star isDigitC, chr '.', .rep isDigitC 2 4,
    chr ' ', .opt isSignC, .cls isDigitC, .star isDigitC, chr '.', .rep isDigitC 2 4,
    chr '%', chr '"', .cls isAnyC, .cls isAnyC,
  chr '"', .opt isSignC, chr '$', .cls isDigitComma, .star isDigitComma,
    .opt (fun c => decide (c = '.')), .star isDigitC, chr ' ',
    .group 2 (seqs [.opt isSignC, .cls isDigitC, .star isDigitC,
      .opt (fun c => decide (c = '.')), .star isDigitC]),
    chr '%', chr '"', .cls isAnyC, .cls isAnyC,
  chr '"', .cls isUpperC, .star isAnyC, chr '"', .cls isAnyC, .cls isAnyC,
  chr '"', .group 3 (seqs [.star isDigitC, .opt isAnyC, .star isDigitC]), chr '"',
    .cls isAnyC, .cls isAnyC,
  chr '"', chr '$', .cls isDigitComma, .star isDigitComma, .opt (fun c => decide (c = '.')),
    .star isDigitC, chr '"', .cls isAnyC, .cls isAnyC,
  chr '"', chr '$', .group 4 (seqs [.cls isDigitComma, .star isDigitComma,
    .opt (fun c => decide (c = '.')), .star isDigitC]), chr '"' ]

/-- `r_stock` of `extract_stocks`: `"([A-Z]{1,4})\s?!?"`. -/
def rStockH : RE := seqs [
  chr '"', .group 1 (.rep isUpperC 1 4), .opt isSpaceC, .opt (fun c => decide (c = '!')),
  chr '"' ]

/-- `r_order` of `extract_orders`:
`.*"\s?([A-Z]{1,4})\s?!?".*"(\d*.?\d*)".."Stop quote\$([0-9,]+\.?[0-9]{2})`. -/
def rOrder : RE := seqs [
  .star isAnyC, chr '"', .opt isSpaceC, .group 1 (.rep isUpperC 1 4), .opt isSpaceC,
    .opt (fun c => decide (c = '!')), chr '"',
  .star isAnyC,
  chr '"', .group 2 (seqs [.star isDigitC, .opt isAnyC, .star isDigitC]), chr '"',
    .cls isAnyC, .cls isAnyC,
  chr '"', lits ("Stop quote"), chr '$',
  .group 3 (seqs [.cls isDigitComma, .star isDigitComma, .opt (fun c => decide (c = '.')),
    .rep isDigitC 2 2]) ]

/-- `r_stock` of `extract_orders`: `.*"\s?([A-Z]{1,4})\s?!?".*"Stop quote\$`. -/
def rStockO : RE := seqs [
  .star isAnyC, chr '"', .opt isSpaceC, .group 1 (.rep isUpperC 1 4), .opt isSpaceC,
    .opt (fun c => decide (c = '!')), chr '"',
  .star isAnyC, chr '"', lits ("Stop quote"), chr '$' ]

/-- `r_stock.match(line)` in `extract_stocks`, yielding `m.group(1)`. -/
def matchStockH (line : List Char) : Option (List Char) :=
  (reMatch rStockH line).bind (group? 1)

/-- `r_unit_cost.match(line)`, yielding groups 1–4
(symbol, gain percent, quantity, last price). -/
def matchUnitCost (line : List Char) :
    Option (List Char × List Char × List Char × List Char) :=
  (reMatch rUnitCost line).bind fun caps =>
    match group? 1 caps, group? 2 caps, group? 3 caps, group? 4 caps with
    | some a, some b, some c, some d => some (a, b, c, d)
    | _, _, _, _ => none

/-- `r_order.match(line)` in `extract_orders`, yielding groups 1–3
(symbol, quantity, stop price). -/
def matchOrder (line : List Char) : Option (List Char × List Char × List Char) :=
  (reMatch rOrder line).bind fun caps =>
    match group? 1 caps, group? 2 caps, group? 3 caps with
    | some a, some b, some c => some (a, b, c)
    | _, _, _ => none

/-- `r_stock.match(line)` in `extract_orders`, yielding `m.group(1)`. -/
def matchStockO (line : List Char) : Option (List Char) :=
  (reMatch rStockO line).bind (group? 1)

/-! ### The data model -/

/-- A value stored under a dict key that the source sets either to a float or
to the empty-string sentinel `''`, and that may also be absent entirely. -/
inductive PyVal where
  | missing : PyVal
  | blank : PyVal
  | num : ℚ → PyVal
deriving DecidableEq

/-- Whether a `PyVal` holds an actual number. -/
def PyVal.isNum : PyVal → Bool
  | .num _ => true
  | _ => false

/-- One per-symbol record of the stocks dict.  `gain`, `lastPrice` and
`holdingQuantity` are set whenever the record exists (records are only ever
created by a full holdings match); the remaining fields start out absent. -/
structure StockRecord where
  gain : ℚ
  lastPrice : ℚ
  holdingQuantity : ℚ
  existStop : PyVal
  orderQuantity : Option ℚ
  stop95 : Option ℚ
  newStop : PyVal
deriving DecidableEq

/-- Ticker symbols as captured character lists. -/
abbrev TSym := List Char

/-- The `stocks_dict`: insertion-ordered association list, as a Python dict. -/
abbrev StockDict := List (TSym × StockRecord)

/-- Python dict assignment `d[k] = v`: update in place when the key exists
(keeping its position), append otherwise. -/
def upsert (k : TSym) (v : StockRecord) : StockDict → StockDict
  | [] => [(k, v)]
  | (k', v') :: rest => if k' = k then (k, v) :: rest else (k', v') :: upsert k v rest

/-- Python dict lookup `d[k]`, `none` when the key is absent (`KeyError`). -/
def lookup (k : TSym) : StockDict → Option StockRecord
  | [] => none
  | (k', v') :: rest => if k' = k then some v' else lookup k rest

/-- `d.keys()`. -/
def keys (d : StockDict) : List TSym := d.map Prod.fst

/-! ### Holdings parser (`extract_stocks`) -/

/-- Processing of one holdings line: normalise the sentinels, tally a bare
symbol match, and upsert a record on a full match, converting the captured
fields with `float`.  `none` models an uncaught `ValueError`. -/
def holdingsStep (st : List TSym × StockDict) (line : List Char) :
    Option (List TSym × StockDict) :=
  let l := normalizeLine line
  let t := match matchStockH l with
    | some s => st.1 ++ [s]
    | none => st.1
  match matchUnitCost l with
  | none => some (t, st.2)
  | some (s, g, q, p) =>
    match pyFloat g, pyFloat (stripCommas p), pyFloat q with
    | some gv, some pv, some qv =>
      some (t, upsert s
        { gain := gv, lastPrice := pv, holdingQuantity := qv,
          existStop := .missing, orderQuantity := none,
          stop95 := none, newStop := .missing } st.2)
    | _, _, _ => none

/-- The full line loop of `extract_stocks`. -/
def holdingsScan (lines : List (List Char)) : Option (List TSym × StockDict) :=
  lines.foldlM holdingsStep ([], [])

/-- Outcome of `extract_stocks`: the parsed dict, or a fatal termination
(reconciliation `sys.exit(1)` carrying what is printed, or a float crash). -/
inductive StocksResult where
  | ok : StockDict → StocksResult
  | reconError : List TSym → List TSym → List TSym → StocksResult
  | floatError : StocksResult
deriving DecidableEq

/-- `set(counter).difference(set(ks))`, as a deduplicated list. -/
def setDiff (counter ks : List TSym) : List TSym :=
  counter.dedup.filter (fun s => decide (s ∉ ks))

/-- `extract_stocks`: scan all lines, then reconcile the bare-symbol tally
length against the number of stored (distinct) symbols; mismatch is fatal and
reports `set(stock_counter).difference(set(stocks_dict.keys()))`. -/
def extract_stocks (lines : List (List Char)) : StocksResult :=
  match holdingsScan lines with
  | none => .floatError
  | some (tally, d) =>
    if d.length ≠ tally.length then .reconError tally (keys d) (setDiff tally (keys d))
    else .ok d

/-- Whether the holdings parser terminates the process with non-zero status. -/
def isFatal : StocksResult → Bool
  | .ok _ => false
  | _ => true

/-- The bare-symbol matches of a holdings file, in order (the
`stock_counter` tally). -/
def bareTally (lines : List (List Char)) : List TSym :=
  lines.filterMap (fun l => matchStockH (normalizeLine l))

/-- The full-record matches of a holdings file, in order. -/
def fullMatches (lines : List (List Char)) :
    List (List Char × List Char × List Char × List Char) :=
  lines.filterMap (fun l => matchUnitCost (normalizeLine l))

/-- The symbols of the full-record matches, with multiplicity. -/
def fullSyms (lines : List (List Char)) : List TSym := (fullMatches lines).map (·.1)

/-- The count of full-record matches. -/
def fullCount (lines : List (List Char)) : Nat := (fullMatches lines).length

/-! ### Orders parser (`extract_orders`) -/

/-- A mid-scan crash of `extract_orders`: an uncaught `KeyError` on a symbol
absent from the holdings dict, or an uncaught `ValueError` from `float`. -/
inductive OrdErr where
  | keyError : TSym → OrdErr
  | floatError : OrdErr
deriving DecidableEq

/-- Processing of one orders line: tally a bare stop-quote symbol match, and
on a full order match look the symbol up (`stocks_dict[symbol]` — a missing
key raises `KeyError`), set the existing stop and order quantity, and record
the symbol in the handled tally. -/
def ordersStep (st : List TSym × List TSym × StockDict) (line : List Char) :
    Except OrdErr (List TSym × List TSym × StockDict) :=
  let t := match matchStockO line with
    | some s => st.1 ++ [s]
    | none => st.1
  match matchOrder line with
  | none => .ok (t, st.2.1, st.2.2)
  | some (s, q, p) =>
    match lookup s st.2.2 with
    | none => .error (.keyError s)
    | some r =>
      match pyFloat (stripCommas p), pyFloat q with
      | some pv, some qv =>
        .ok (t, st.2.1 ++ [s],
          upsert s { r with existStop := .num pv, orderQuantity := some qv } st.2.2)
      | _, _ => .error .floatError

/-- Outcome of `extract_orders`: the updated dict, a mid-scan crash, or the
fatal reconciliation exit. -/
inductive OrdersResult where
  | ok : StockDict → OrdersResult
  | keyError : TSym → OrdersResult
  | floatError : OrdersResult
  | reconError : List TSym → List TSym → OrdersResult
deriving DecidableEq

/-- `extract_orders`: scan all lines, then reconcile the bare tally length
against the handled tally length; mismatch is fatal. -/
def extract_orders (lines : List (List Char)) (d : StockDict) : OrdersResult :=
  match lines.foldlM ordersStep ([], [], d) with
  | .error (.keyError s) => .keyError s
  | .error .floatError => .floatError
  | .ok (tally, handled, d') =>
    if tally.length ≠ handled.length then .reconError tally handled
    else .ok d'

/-! ### Quote calculator (`calc_95stop_quote`, `calc_avg_quote`, `calc_quotes`) -/

/-- One record of the `calc_95stop_quote` loop:
`round(last_price * 0.95, 2)` stored under the 95% stop key. -/
def calc95Record (r : StockRecord) : StockRecord :=
  { r with stop95 := some (pyRound (r.lastPrice * (19/20)) 2) }

/-- `calc_95stop_quote`: apply the candidate-stop computation to every record. -/
def calc_95stop_quote (d : StockDict) : StockDict :=
  d.map (fun kv => (kv.1, calc95Record kv.2))

/-- The tiered precision reduction applied to the averaged stop:
no decimals at or above 1000, one decimal at or above 50. -/
def tieredReduce (raw : ℚ) : ℚ :=
  if raw ≥ 1000 then (pyInt raw : ℚ)
  else if raw ≥ 50 then pyRound raw 1
  else raw

/-- One record of the `calc_avg_quote` loop.  A record whose exist-stop key is
absent crashes on the dict read (`none`); otherwise, when the gain is at least
+5, at most −5, or an existing stop is present (`!= ''`), the new stop is the
tier-reduced 2-decimal average with an existing stop, or the truncated
candidate stop without one; ineligible records get `''`. -/
def calcAvgRecord (r : StockRecord) : Option StockRecord :=
  if r.existStop = .missing then none
  else if r.gain ≥ 5 ∨ r.gain ≤ -5 ∨ r.existStop ≠ .blank then
    match r.stop95 with
    | none => none
    | some c =>
      match r.existStop with
      | .num e => some { r with newStop := .num (tieredReduce (pyRound ((c + e) / 2) 2)) }
      | _ => some { r with newStop := .num (pyInt c : ℚ) }
  else some { r with newStop := .blank }

/-- `calc_avg_quote`: apply the blend-and-round step to every record. -/
def calc_avg_quote (d : StockDict) : Option StockDict :=
  d.mapM (fun kv => (calcAvgRecord kv.2).map (fun r => (kv.1, r)))

/-- The fill loop of `calc_quotes`: a record without the exist-stop key gets
the `''` sentinel. -/
def fillExistStop (r : StockRecord) : StockRecord :=
  if r.existStop = .missing then { r with existStop := .blank } else r

/-- `calc_quotes`: fill missing exist stops, compute candidate stops, then
blend into the recommended stops. -/
def calc_quotes (d : StockDict) : Option StockDict :=
  calc_avg_quote (calc_95stop_quote (d.map (fun kv => (kv.1, fillExistStop kv.2))))

/-! ### Concrete inputs used to instantiate the claims -/

/-- The symbol `AAPL`. -/
def aapl : TSym := ("AAPL").toList

/-- The symbol `ZZZ`. -/
def zzz : TSym := ("ZZZ").toList

/-- A well-formed holdings line (gain +10.00%, quantity 10, last price $100.00). -/
def fullLine : List Char :=
  ("\"AAPL\", \"+$1.00 +1.00%\", \"+$10.00 +10.00%\", \"Apple\", \"10\", \"$90.00\", \"$100.00\"").toList

/-- A holdings file repeating the same full-record line twice. -/
def file2 : List (List Char) := [fullLine, fullLine]

/-- A holdings line that matches the bare-symbol pattern but not the
full-record pattern. -/
def symLine : List Char := ("\"AAPL\"").toList

/-- A sold/flat holdings line with the double-dash sentinel in the
unrealized-gain and unit-cost fields. -/
def soldLine : List Char :=
  ("\"AAPL\", \"+$1.00 +1.00%\", \"-- --\", \"Apple\", \"0\", \"--\", \"$100.00\"").toList

/-- `soldLine` after sentinel normalisation. -/
def soldLineNormalized : List Char :=
  ("\"AAPL\", \"+$1.00 +1.00%\", \"+$0.0 +0.0%\", \"Apple\", \"0\", \"$0.0\", \"$100.00\"").toList

/-- An orders line with a `Stop quote$50.00` order for symbol `ZZZ`. -/
def ordLine : List Char := ("\"ZZZ\", \"10\", \"Stop quote$50.00\"").toList

/-- The record parsed from `fullLine`. -/
def recAAPL : StockRecord := ⟨10, 100, 10, .missing, none, none, .missing⟩

/-- The record parsed from `soldLine` (zero gain). -/
def recSold : StockRecord := ⟨0, 100, 0, .missing, none, none, .missing⟩

/-- Last price 2000.00 with an existing stop of 1850.00, before the calculator. -/
def rLP2000 : StockRecord := ⟨10, 2000, 1, .num 1850, some 1, none, .missing⟩

/-- `rLP2000` after the calculator: candidate 1900.00, recommended 1875. -/
def rLP2000' : StockRecord := ⟨10, 2000, 1, .num 1850, some 1, some 1900, .num 1875⟩

/-- Last price 60.00 with an existing stop of 55.00, before the calculator. -/
def rLP60 : StockRecord := ⟨10, 60, 1, .num 55, some 1, none, .missing⟩

/-- `rLP60` after the calculator: candidate 57.00, recommended 56.0. -/
def rLP60' : StockRecord := ⟨10, 60, 1, .num 55, some 1, some 57, .num 56⟩

/-- Last price 100.00, no existing stop, gain +10%, before the calculator. -/
def rLP100 : StockRecord := ⟨10, 100, 1, .blank, none, none, .missing⟩

/-- `rLP100` after the calculator: candidate 95.00, recommended 95. -/
def rLP100' : StockRecord := ⟨10, 100, 1, .blank, none, some 95, .num 95⟩

/-- Gain +6%, no existing stop, candidate stop already computed. -/
def rGain6 : StockRecord := ⟨6, 100, 1, .blank, none, some 95, .missing⟩

/-- `rGain6` after the blend step. -/
def rGain6' : StockRecord := ⟨6, 100, 1, .blank, none, some 95, .num 95⟩

/-- Zero gain with an existing stop priced 0.00 and candidate stop 38. -/
def rZeroStop : StockRecord := ⟨0, 40, 1, .num 0, some 1, some 38, .missing⟩

/-- `rZeroStop` after the blend step: average of 38 and 0.00 is 19. -/
def rZeroStop' : StockRecord := ⟨0, 40, 1, .num 0, some 1, some 38, .num 19⟩

/-- Last price 1052.65 (candidate 1000.02) with existing stop 1000.04. -/
def rX : StockRecord := ⟨10, 105265/100, 1, .num (100004/100), some 1, none, .missing⟩

/-- `rX` after the calculator: the truncated recommendation 1000 drops below
both the candidate stop and the existing stop. -/
def rX' : StockRecord :=
  ⟨10, 105265/100, 1, .num (100004/100), some 1, some (100002/100), .num 1000⟩

/-- Adding a dict key: keep the list unchanged when present, append otherwise
(the effect of `upsert` on the key list). -/
def addKey (s : TSym) (ks : List TSym) : List TSym := if s ∈ ks then ks else ks ++ [s]

/-- Iterated `addKey` over a list of symbols. -/
def addKeys (ks : List TSym) (ss : List TSym) : List TSym :=
  ss.foldl (fun a s => addKey s a) ks

/-! ### Properties of the rounding primitives -/

/-- `rhe` is the identity on integers. -/
theorem rhe_intCast (k : ℤ) : rhe (k : ℚ) = k := by
  unfold rhe
  rw [Int.floor_intCast]
  norm_num

/-- `rhe` rounds up by at most a half. -/
theorem rhe_le (q : ℚ) : (rhe q : ℚ) ≤ q + 1/2 := by
  unfold rhe
  have h0 : (⌊q⌋ : ℚ) ≤ q := Int.floor_le q
  split
  · linarith
  · split
    · push_cast
      linarith
    · split
      · linarith
      · push_cast
        linarith [le_of_not_lt (by assumption : ¬ 1/2 < q - ⌊q⌋)]

/-- `rhe` rounds down by at most a half. -/
theorem le_rhe (q : ℚ) : q - 1/2 ≤ (rhe q : ℚ) := by
  unfold rhe
  have h1 : q < ⌊q⌋ + 1 := Int.lt_floor_add_one q
  split
  · linarith [le_of_lt (by assumption : q - ⌊q⌋ < 1/2)]
  · split
    · push_cast
      linarith
    · split
      · linarith [le_of_not_lt (by assumption : ¬ q - ⌊q⌋ < 1/2)]
      · push_cast
        linarith [le_of_not_lt (by assumption : ¬ q - ⌊q⌋ < 1/2)]

/-- Evaluation of `rhe` when the fractional part is below a half. -/
theorem rhe_eq_of_lt_half (q : ℚ) (k : ℤ) (h1 : (k : ℚ) ≤ q) (h2 : q - k < 1/2) :
    rhe q = k := by
  have hf : ⌊q⌋ = k := Int.floor_eq_iff.mpr ⟨h1, by linarith⟩
  unfold rhe
  rw [hf, if_pos h2]

/-- Evaluation of `rhe` when the fractional part is above a half. -/
theorem rhe_eq_of_gt_half (q : ℚ) (k : ℤ) (h1 : 1/2 < q - k) (h2 : q < k + 1) :
    rhe q = k + 1 := by
  have hf : ⌊q⌋ = k := Int.floor_eq_iff.mpr ⟨by linarith, by linarith⟩
  unfold rhe
  rw [hf, if_neg (by linarith), if_pos h1]

/-- One-step evaluation of `pyRound` when the scaled value is an integer. -/
theorem pyRound_eq (q : ℚ) (n : ℕ) (k : ℤ) (v : ℚ)
    (h : q * 10 ^ n = (k : ℚ)) (hv : (k : ℚ) / 10 ^ n = v) : pyRound q n = v := by
  rw [pyRound, h, rhe_intCast, hv]

/-- `pyRound` moves the value up by at most half a final-place unit. -/
theorem pyRound_le (q : ℚ) (n : ℕ) : pyRound q n ≤ q + 1 / (2 * 10 ^ n) := by
  have hp : (0 : ℚ) < 10 ^ n := by positivity
  have h := rhe_le (q * 10 ^ n)
  rw [pyRound]
  rw [div_le_iff₀ hp]
  calc (rhe (q * 10 ^ n) : ℚ) ≤ q * 10 ^ n + 1/2 := h
    _ = (q + 1 / (2 * 10 ^ n)) * 10 ^ n := by field_simp; ring

/-- `pyRound` moves the value down by at most half a final-place unit. -/
theorem le_pyRound (q : ℚ) (n : ℕ) : q - 1 / (2 * 10 ^ n) ≤ pyRound q n := by
  have hp : (0 : ℚ) < 10 ^ n := by positivity
  have h := le_rhe (q * 10 ^ n)
  rw [pyRound]
  rw [le_div_iff₀ hp]
  calc (q - 1 / (2 * 10 ^ n)) * 10 ^ n = q * 10 ^ n - 1/2 := by field_simp; ring
    _ ≤ (rhe (q * 10 ^ n) : ℚ) := h

/-- `pyInt` is the floor on nonnegative arguments. -/
theorem pyInt_of_nonneg (q : ℚ) (h : 0 ≤ q) : pyInt q = ⌊q⌋ := by
  rw [pyInt, if_neg (not_lt.mpr h)]

/-- The 2-decimal rounded average of two cent-precision values stays in their
closed interval. -/
theorem pyRound_avg_cents (cm em : ℤ) :
    min ((cm : ℚ)/100) ((em : ℚ)/100) ≤
      pyRound ((((cm : ℚ)/100) + ((em : ℚ)/100)) / 2) 2 ∧
    pyRound ((((cm : ℚ)/100) + ((em : ℚ)/100)) / 2) 2 ≤
      max ((cm : ℚ)/100) ((em : ℚ)/100) := by
  have hx : (((cm : ℚ)/100) + ((em : ℚ)/100)) / 2 * 10 ^ 2 = ((cm : ℚ) + em) / 2 := by
    ring
  have hmem : (min cm em : ℚ) ≤ (rhe (((cm : ℚ) + em) / 2) : ℚ) ∧
      (rhe (((cm : ℚ) + em) / 2) : ℚ) ≤ (max cm em : ℚ) := by
    rcases eq_or_ne cm em with rfl | hne
    · have : ((cm : ℚ) + cm) / 2 = (cm : ℚ) := by ring
      rw [this, rhe_intCast]
      constructor
      · exact_mod_cast min_le_left cm cm
      · exact_mod_cast le_max_left cm cm
    · have hlt : min cm em < max cm em := min_lt_max.mpr hne
      have hsum : (min cm em : ℚ) + (max cm em : ℚ) = (cm : ℚ) + em := by
        exact_mod_cast congrArg (fun z : ℤ => (z : ℚ)) (min_add_max cm em)
      have h1 : (min cm em : ℚ) + 1 ≤ (max cm em : ℚ) := by
        exact_mod_cast Int.add_one_le_iff.mpr hlt
      constructor
      · have := le_rhe (((cm : ℚ) + em) / 2)
        linarith
      · have := rhe_le (((cm : ℚ) + em) / 2)
        linarith
  have h100 : (0 : ℚ) ≤ 100 := by norm_num
  rw [pyRound, hx, min_div_div_right h100, max_div_div_right h100,
    (by norm_num : ((10 : ℚ)) ^ 2 = 100)]
  have hp : (0 : ℚ) < 100 := by norm_num
  constructor
  · rw [div_le_div_iff_of_pos_right hp]
    exact_mod_cast hmem.1
  · rw [div_le_div_iff_of_pos_right hp]
    exact_mod_cast hmem.2

/-! ### Dict-key bookkeeping lemmas -/

/-- The element just added is a member. -/
theorem mem_addKey_self (s : TSym) (ks : List TSym) : s ∈ addKey s ks := by
  unfold addKey
  split
  · assumption
  · simp

/-- `addKey` preserves membership. -/
theorem mem_addKey_of_mem (x s : TSym) (ks : List TSym) (h : x ∈ ks) :
    x ∈ addKey s ks := by
  unfold addKey
  split
  · exact h
  · exact List.mem_append_left _ h

/-- `addKeys` preserves membership of the accumulator. -/
theorem mem_addKeys_of_mem (x : TSym) (ss : List TSym) :
    ∀ ks : List TSym, x ∈ ks → x ∈ addKeys ks ss := by
  induction ss with
  | nil => intro ks h; simpa [addKeys] using h
  | cons a t ih =>
    intro ks h
    simpa [addKeys] using ih (addKey a ks) (mem_addKey_of_mem x a ks h)

/-- Every listed symbol ends up in `addKeys`. -/
theorem mem_addKeys_of_mem_list (x : TSym) (ss : List TSym) :
    ∀ ks : List TSym, x ∈ ss → x ∈ addKeys ks ss := by
  induction ss with
  | nil => intro ks h; cases h
  | cons a t ih =>
    intro ks h
    rcases List.mem_cons.mp h with h | h
    · subst h
      simpa [addKeys] using mem_addKeys_of_mem x t (addKey x ks) (mem_addKey_self x ks)
    · simpa [addKeys] using ih (addKey a ks) h

/-- `addKey` grows the key list by at most one. -/
theorem length_addKey_le (s : TSym) (ks : List TSym) :
    (addKey s ks).length ≤ ks.length + 1 := by
  unfold addKey
  split
  · omega
  · simp

/-- `addKey` of a present key is the identity. -/
theorem addKey_of_mem (s : TSym) (ks : List TSym) (h : s ∈ ks) : addKey s ks = ks := by
  unfold addKey
  rw [if_pos h]

/-- `upsert` acts on the key list as `addKey`. -/
theorem keys_upsert (s : TSym) (v : StockRecord) (d : StockDict) :
    keys (upsert s v d) = addKey s (keys d) := by
  induction d with
  | nil =>
    show keys [(s, v)] = addKey s []
    rw [addKey, if_neg (List.not_mem_nil s)]
    rfl
  | cons kv rest ih =>
    rcases kv with ⟨k, w⟩
    have h1 : upsert s v ((k, w) :: rest) =
        if k = s then (s, v) :: rest else (k, w) :: upsert s v rest := rfl
    by_cases hk : k = s
    · subst hk
      rw [h1, if_pos rfl]
      have h2 : k ∈ keys ((k, w) :: rest) := by
        show k ∈ k :: keys rest
        exact List.mem_cons_self k _
      rw [addKey_of_mem k _ h2]
      rfl
    · rw [h1, if_neg hk]
      have h2 : keys ((k, w) :: upsert s v rest) = k :: keys (upsert s v rest) := rfl
      rw [h2, ih]
      by_cases hm : s ∈ keys rest
      · have hm2 : s ∈ keys ((k, w) :: rest) := by
          show s ∈ k :: keys rest
          exact List.mem_cons_of_mem k hm
        rw [addKey_of_mem s _ hm, addKey_of_mem s _ hm2]
        rfl
      · have hm2 : s ∉ keys ((k, w) :: rest) := by
          show s ∉ k :: keys rest
          intro hc
          rcases List.mem_cons.mp hc with h | h
          · exact hk h.symm
          · exact hm h
        rw [addKey, if_neg hm, addKey, if_neg hm2]
        rfl

/-- `addKeys` grows the key list by at most the number of symbols. -/
theorem length_addKeys_le (ss : List TSym) :
    ∀ ks : List TSym, (addKeys ks ss).length ≤ ks.length + ss.length := by
  induction ss with
  | nil => intro ks; simp [addKeys]
  | cons a t ih =>
    intro ks
    have h1 := ih (addKey a ks)
    have h2 := length_addKey_le a ks
    simp only [addKeys, List.foldl_cons] at h1 ⊢
    simp only [List.length_cons]
    omega

/-- `addKeys` grows strictly less than the symbol count when some listed
symbol is already present. -/
theorem length_addKeys_lt_of_mem (x : TSym) (ss : List TSym) :
    ∀ ks : List TSym, x ∈ ks → x ∈ ss →
      (addKeys ks ss).length < ks.length + ss.length := by
  induction ss with
  | nil => intro ks _ h; cases h
  | cons a t ih =>
    intro ks hks hss
    rcases List.mem_cons.mp hss with h | h
    · subst h
      have h1 := length_addKeys_le t (addKey x ks)
      rw [addKey_of_mem x ks hks] at h1
      simp only [addKeys, List.foldl_cons, addKey_of_mem x ks hks, List.length_cons]
      simp only [addKeys] at h1
      omega
    · have h1 := ih (addKey a ks) (mem_addKey_of_mem x a ks hks) h
      have h2 := length_addKey_le a ks
      simp only [addKeys, List.foldl_cons] at h1 ⊢
      simp only [List.length_cons]
      omega

/-- With a duplicated symbol, `addKeys` from the empty accumulator produces
strictly fewer keys than symbols. -/
theorem length_addKeys_lt_of_dup (ss : List TSym) (h : ∃ x, 2 ≤ ss.count x) :
    (addKeys [] ss).length < ss.length := by
  obtain ⟨x, hx⟩ := h
  have hmem : x ∈ ss := by
    have : 0 < ss.count x := by omega
    exact List.count_pos_iff.mp this
  obtain ⟨u, v, rfl⟩ := List.append_of_mem hmem
  have hcnt : 1 ≤ u.count x + v.count x := by
    have h1 : (u ++ x :: v).count x = u.count x + (v.count x + 1) := by
      rw [List.count_append, List.count_cons_self]
    omega
  have hsplit : addKeys ([] : List TSym) (u ++ x :: v) =
      addKeys (addKey x (addKeys [] u)) v := by
    simp [addKeys, List.foldl_append]
  have hKu : (addKeys ([] : List TSym) u).length ≤ u.length := by
    have := length_addKeys_le u ([] : List TSym)
    simpa using this
  rcases Nat.lt_or_ge 0 (u.count x) with hu | hu
  · have hxu : x ∈ u := List.count_pos_iff.mp hu
    have hxK : x ∈ addKeys ([] : List TSym) u := mem_addKeys_of_mem_list x u [] hxu
    rw [hsplit, addKey_of_mem x _ hxK]
    have h2 := length_addKeys_le v (addKeys ([] : List TSym) u)
    simp only [List.length_append, List.length_cons]
    omega
  · have hxv : x ∈ v := by
      have : 0 < v.count x := by omega
      exact List.count_pos_iff.mp this
    rw [hsplit]
    have h2 := length_addKeys_lt_of_mem x v (addKey x (addKeys [] u))
      (mem_addKey_self x _) hxv
    have h3 := length_addKey_le x (addKeys ([] : List TSym) u)
    simp only [List.length_append, List.length_cons]
    omega

/-- Unfolding of `addKeys` on a cons. -/
theorem addKeys_cons (ks : List TSym) (s : TSym) (ss : List TSym) :
    addKeys ks (s :: ss) = addKeys (addKey s ks) ss := rfl

/-- The holdings scan produces exactly the bare-symbol tally, and its dict
keys are the iterated `addKey` over the full-match symbols. -/
theorem holdingsScan_aux (lines : List (List Char)) :
    ∀ (t0 : List TSym) (d0 : StockDict) (t : List TSym) (d : StockDict),
      lines.foldlM holdingsStep (t0, d0) = some (t, d) →
      t = t0 ++ bareTally lines ∧ keys d = addKeys (keys d0) (fullSyms lines) := by
  induction lines with
  | nil =>
    intro t0 d0 t d h
    simp only [List.foldlM_nil, Option.pure_def, Option.some.injEq] at h
    obtain ⟨h1, h2⟩ := Prod.mk.injEq .. ▸ h
    constructor
    · rw [← h1]
      simp [bareTally]
    · rw [← h2]
      simp [fullSyms, fullMatches, addKeys]
  | cons l ls ih =>
    intro t0 d0 t d h
    rw [List.foldlM_cons] at h
    cases hstep : holdingsStep (t0, d0) l with
    | none =>
      rw [hstep] at h
      simp at h
    | some mid =>
      rw [hstep] at h
      have h2 : ls.foldlM holdingsStep mid = some (t, d) := h
      rcases mid with ⟨t1, d1⟩
      obtain ⟨ht, hd⟩ := ih t1 d1 t d h2
      unfold holdingsStep at hstep
      simp only [] at hstep
      cases hm : matchUnitCost (normalizeLine l) with
      | none =>
        rw [hm] at hstep
        simp only [Option.some.injEq, Prod.mk.injEq] at hstep
        obtain ⟨ht1, hd1⟩ := hstep
        cases hs : matchStockH (normalizeLine l) with
        | none =>
          rw [hs] at ht1
          constructor
          · rw [ht, ← ht1]
            simp [bareTally, List.filterMap_cons, hs]
          · rw [hd, ← hd1]
            simp [fullSyms, fullMatches, List.filterMap_cons, hm]
        | some s =>
          rw [hs] at ht1
          constructor
          · rw [ht, ← ht1]
            simp [bareTally, List.filterMap_cons, hs]
          · rw [hd, ← hd1]
            simp [fullSyms, fullMatches, List.filterMap_cons, hm]
      | some r4 =>
        rw [hm] at hstep
        rcases r4 with ⟨s, g, q, p⟩
        simp only [] at hstep
        cases hg : pyFloat g with
        | none =>
          rw [hg] at hstep
          cases hp : pyFloat (stripCommas p) <;> cases hq : pyFloat q <;>
            rw [hp, hq] at hstep <;> simp at hstep
        | some gv =>
          rw [hg] at hstep
          cases hp : pyFloat (stripCommas p) with
          | none =>
            rw [hp] at hstep
            cases hq : pyFloat q <;> rw [hq] at hstep <;> simp at hstep
          | some pv =>
            rw [hp] at hstep
            cases hq : pyFloat q with
            | none =>
              rw [hq] at hstep
              simp at hstep
            | some qv =>
              rw [hq] at hstep
              simp only [Option.some.injEq, Prod.mk.injEq] at hstep
              obtain ⟨ht1, hd1⟩ := hstep
              have hfull : fullSyms (l :: ls) = s :: fullSyms ls := by
                simp [fullSyms, fullMatches, List.filterMap_cons, hm]
              have hkeys : keys d1 = addKey s (keys d0) := by
                rw [← hd1, keys_upsert]
              constructor
              · cases hs : matchStockH (normalizeLine l) with
                | none =>
                  rw [hs] at ht1
                  rw [ht, ← ht1]
                  simp [bareTally, List.filterMap_cons, hs]
                | some s' =>
                  rw [hs] at ht1
                  rw [ht, ← ht1]
                  simp [bareTally, List.filterMap_cons, hs]
              · rw [hd, hkeys, hfull, addKeys_cons]

/-! ### Concrete evaluations -/

/-- Evaluation rule for `pyFloat` from a computed `splitNum`. -/
theorem pyFloat_eval (s : List Char) (t : Bool × List Char × List Char)
    (h1 : splitNum s = some t) (m k : ℕ)
    (h2 : digitsVal (t.2.1 ++ t.2.2) = m) (hk : t.2.2.length = k) (v : ℚ)
    (h3 : (if t.1 then (-1 : ℚ) else 1) * ((m : ℚ) / 10 ^ k) = v) :
    pyFloat s = some v := by
  rw [pyFloat, h1]
  show some ((if t.1 then (-1 : ℚ) else 1) *
    ((digitsVal (t.2.1 ++ t.2.2) : ℚ) / 10 ^ t.2.2.length)) = some v
  rw [h2, hk, h3]

/-- `float('+10.00') = 10`. -/
theorem pyFloat_p10 : pyFloat (("+10.00").toList) = some 10 :=
  pyFloat_eval _ (false, ("10").toList, ("00").toList) (by decide) 1000 2
    (by decide) (by decide) 10 (by norm_num)

/-- `float('100.00') = 100`. -/
theorem pyFloat_100 : pyFloat (("100.00").toList) = some 100 :=
  pyFloat_eval _ (false, ("100").toList, ("00").toList) (by decide) 10000 2
    (by decide) (by decide) 100 (by norm_num)

/-- `float('10') = 10`. -/
theorem pyFloat_10 : pyFloat (("10").toList) = some 10 :=
  pyFloat_eval _ (false, ("10").toList, []) (by decide) 10 0
    (by decide) (by decide) 10 (by norm_num)

/-- `float('+0.0') = 0`. -/
theorem pyFloat_p0 : pyFloat (("+0.0").toList) = some 0 :=
  pyFloat_eval _ (false, ("0").toList, ("0").toList) (by decide) 0 1
    (by decide) (by decide) 0 (by norm_num)

/-- `float('0') = 0`. -/
theorem pyFloat_0 : pyFloat (("0").toList) = some 0 :=
  pyFloat_eval _ (false, ("0").toList, []) (by decide) 0 0
    (by decide) (by decide) 0 (by norm_num)

/-- One holdings step on the well-formed line upserts the parsed record. -/
theorem holdingsStep_fullLine (t0 : List TSym) (d0 : StockDict) :
    holdingsStep (t0, d0) fullLine = some (t0 ++ [aapl], upsert aapl recAAPL d0) := by
  have hs : matchStockH (normalizeLine fullLine) = some aapl := by decide
  have hm : matchUnitCost (normalizeLine fullLine) =
      some (aapl, ("+10.00").toList, ("10").toList, ("100.00").toList) := by decide
  have hstrip : stripCommas (("100.00").toList) = ("100.00").toList := by decide
  unfold holdingsStep
  simp only []
  rw [hs, hm]
  simp only []
  rw [hstrip, pyFloat_p10, pyFloat_100, pyFloat_10]
  rfl

/-- One holdings step on the sold/flat line upserts the zero-gain record. -/
theorem holdingsStep_soldLine (t0 : List TSym) (d0 : StockDict) :
    holdingsStep (t0, d0) soldLine = some (t0 ++ [aapl], upsert aapl recSold d0) := by
  have hs : matchStockH (normalizeLine soldLine) = some aapl := by decide
  have hm : matchUnitCost (normalizeLine soldLine) =
      some (aapl, ("+0.0").toList, ("0").toList, ("100.00").toList) := by decide
  have hstrip : stripCommas (("100.00").toList) = ("100.00").toList := by decide
  unfold holdingsStep
  simp only []
  rw [hs, hm]
  simp only []
  rw [hstrip, pyFloat_p0, pyFloat_100, pyFloat_0]
  rfl

/-- The holdings scan of the duplicated file: two tallies, one stored record. -/
theorem holdingsScan_file2 :
    holdingsScan file2 = some ([aapl, aapl], [(aapl, recAAPL)]) := by
  unfold holdingsScan
  show List.foldlM holdingsStep ([], []) [fullLine, fullLine] = _
  rw [List.foldlM_cons, holdingsStep_fullLine [] []]
  show List.foldlM holdingsStep ([aapl], [(aapl, recAAPL)]) [fullLine] = _
  rw [List.foldlM_cons, holdingsStep_fullLine [aapl] [(aapl, recAAPL)]]
  show some (([aapl] ++ [aapl], upsert aapl recAAPL [(aapl, recAAPL)])) = _
  rfl

/-- The holdings parser accepts the sold/flat file and stores the
zero-gain record. -/
theorem extract_stocks_sold :
    extract_stocks [soldLine] = .ok [(aapl, recSold)] := by
  have hscan : holdingsScan [soldLine] = some ([aapl], [(aapl, recSold)]) := by
    unfold holdingsScan
    rw [List.foldlM_cons, holdingsStep_soldLine [] []]
    rfl
  unfold extract_stocks
  rw [hscan]
  rfl

/-! ### Calculator evaluation rules -/

/-- The blend step on a record with an existing stop present. -/
theorem calcAvgRecord_num (r : StockRecord) (e c : ℚ) (he : r.existStop = .num e)
    (hc : r.stop95 = some c) :
    calcAvgRecord r =
      some { r with newStop := .num (tieredReduce (pyRound ((c + e) / 2) 2)) } := by
  unfold calcAvgRecord
  rw [he, hc, if_neg (by simp), if_pos (Or.inr (Or.inr (by simp)))]

/-- The blend step on an eligible record without an existing stop. -/
theorem calcAvgRecord_blank (r : StockRecord) (c : ℚ) (hb : r.existStop = .blank)
    (hc : r.stop95 = some c) (hel : r.gain ≥ 5 ∨ r.gain ≤ -5) :
    calcAvgRecord r = some { r with newStop := .num (pyInt c : ℚ) } := by
  unfold calcAvgRecord
  rw [hb, hc, if_neg (by simp), if_pos (by
    rcases hel with h | h
    · exact Or.inl h
    · exact Or.inr (Or.inl h))]

/-- The blend step on an ineligible record: the recommendation stays absent. -/
theorem calcAvgRecord_ineligible (r : StockRecord) (hb : r.existStop = .blank)
    (h1 : -5 < r.gain) (h2 : r.gain < 5) :
    calcAvgRecord r = some { r with newStop := .blank } := by
  unfold calcAvgRecord
  rw [hb, if_neg (by simp), if_neg (by
    intro h
    rcases h with h | h | h
    · linarith
    · linarith
    · exact h rfl)]

/-- `round(2000 * 0.95, 2) = 1900`. -/
theorem pyRound_2000 : pyRound ((2000 : ℚ) * (19/20)) 2 = 1900 :=
  pyRound_eq _ _ 190000 1900 (by norm_num) (by norm_num)

/-- `round(60 * 0.95, 2) = 57`. -/
theorem pyRound_60 : pyRound ((60 : ℚ) * (19/20)) 2 = 57 :=
  pyRound_eq _ _ 5700 57 (by norm_num) (by norm_num)

/-- `round(100 * 0.95, 2) = 95`. -/
theorem pyRound_100 : pyRound ((100 : ℚ) * (19/20)) 2 = 95 :=
  pyRound_eq _ _ 9500 95 (by norm_num) (by norm_num)

/-- `round(1052.65 * 0.95, 2) = 1000.02` (the scaled value 100001.75 rounds
up to 100002). -/
theorem pyRound_X : pyRound ((105265/100 : ℚ) * (19/20)) 2 = 100002/100 := by
  have hx : (105265/100 : ℚ) * (19/20) * 10 ^ 2 = 400007/4 := by norm_num
  have hr : rhe (400007/4 : ℚ) = 100002 := by
    have h := rhe_eq_of_gt_half (400007/4 : ℚ) 100001 (by norm_num) (by norm_num)
    omega
  rw [pyRound, hx, hr]
  norm_num

/-- `round((1900 + 1850)/2, 2) = 1875`. -/
theorem pyRound_avg1875 : pyRound (((1900 : ℚ) + 1850) / 2) 2 = 1875 :=
  pyRound_eq _ _ 187500 1875 (by norm_num) (by norm_num)

/-- `round((57 + 55)/2, 2) = 56`. -/
theorem pyRound_avg56 : pyRound (((57 : ℚ) + 55) / 2) 2 = 56 :=
  pyRound_eq _ _ 5600 56 (by norm_num) (by norm_num)

/-- `round((38 + 0)/2, 2) = 19`. -/
theorem pyRound_avg19 : pyRound (((38 : ℚ) + 0) / 2) 2 = 19 :=
  pyRound_eq _ _ 1900 19 (by norm_num) (by norm_num)

/-- `round((1000.02 + 1000.04)/2, 2) = 1000.03`. -/
theorem pyRound_avgX : pyRound (((100002/100 : ℚ) + 100004/100) / 2) 2 = 100003/100 :=
  pyRound_eq _ _ 100003 (100003/100) (by norm_num) (by norm_num)

/-- The tier reduction truncates 1875 to the integer 1875. -/
theorem tiered_1875 : tieredReduce (1875 : ℚ) = 1875 := by
  rw [tieredReduce, if_pos (by norm_num : (1875 : ℚ) ≥ 1000), pyInt,
    if_neg (by norm_num : ¬(1875 : ℚ) < 0)]
  norm_num

/-- The tier reduction rounds 56 to one decimal, keeping the value 56. -/
theorem tiered_56 : tieredReduce (56 : ℚ) = 56 := by
  rw [tieredReduce, if_neg (by norm_num : ¬(56 : ℚ) ≥ 1000),
    if_pos (by norm_num : (56 : ℚ) ≥ 50)]
  exact pyRound_eq _ _ 560 56 (by norm_num) (by norm_num)

/-- The tier reduction keeps 19 at two decimals. -/
theorem tiered_19 : tieredReduce (19 : ℚ) = 19 := by
  rw [tieredReduce, if_neg (by norm_num : ¬(19 : ℚ) ≥ 1000),
    if_neg (by norm_num : ¬(19 : ℚ) ≥ 50)]

/-- The tier reduction truncates 1000.03 down to 1000. -/
theorem tiered_X : tieredReduce (100003/100 : ℚ) = 1000 := by
  rw [tieredReduce, if_pos (by norm_num : (100003/100 : ℚ) ≥ 1000), pyInt,
    if_neg (by norm_num : ¬(100003/100 : ℚ) < 0)]
  rw [Int.floor_eq_iff.mpr (by constructor <;> norm_num : ((1000 : ℤ) : ℚ) ≤ 100003/100 ∧ (100003/100 : ℚ) < 1000 + 1)]
  norm_num

/-- `pyInt 95 = 95`. -/
theorem pyInt_95 : ((pyInt (95 : ℚ) : ℤ) : ℚ) = 95 := by
  rw [pyInt, if_neg (by norm_num : ¬(95 : ℚ) < 0)]
  norm_num

/-- Candidate-stop computation on the 2000.00 record. -/
theorem calc95_rLP2000 :
    calc95Record rLP2000 = ⟨10, 2000, 1, .num 1850, some 1, some 1900, .missing⟩ := by
  simp only [calc95Record, rLP2000]
  rw [pyRound_2000]

/-- Candidate-stop computation on the 60.00 record. -/
theorem calc95_rLP60 :
    calc95Record rLP60 = ⟨10, 60, 1, .num 55, some 1, some 57, .missing⟩ := by
  simp only [calc95Record, rLP60]
  rw [pyRound_60]

/-- Candidate-stop computation on the 100.00 record. -/
theorem calc95_rLP100 :
    calc95Record rLP100 = ⟨10, 100, 1, .blank, none, some 95, .missing⟩ := by
  simp only [calc95Record, rLP100]
  rw [pyRound_100]

/-- Candidate-stop computation on the 1052.65 record. -/
theorem calc95_rX :
    calc95Record rX = ⟨10, 105265/100, 1, .num (100004/100), some 1,
      some (100002/100), .missing⟩ := by
  simp only [calc95Record, rX]
  rw [pyRound_X]

/-- Full calculation on the 2000.00 scenario: recommended stop 1875. -/
theorem calcAvg_rLP2000 : calcAvgRecord (calc95Record rLP2000) = some rLP2000' := by
  rw [calc95_rLP2000,
    calcAvgRecord_num ⟨10, 2000, 1, .num 1850, some 1, some 1900, .missing⟩ 1850 1900 rfl rfl,
    pyRound_avg1875, tiered_1875]
  rfl

/-- Full calculation on the 60.00 scenario: recommended stop 56. -/
theorem calcAvg_rLP60 : calcAvgRecord (calc95Record rLP60) = some rLP60' := by
  rw [calc95_rLP60,
    calcAvgRecord_num ⟨10, 60, 1, .num 55, some 1, some 57, .missing⟩ 55 57 rfl rfl,
    pyRound_avg56, tiered_56]
  rfl

/-- Full calculation on the 100.00 scenario: recommended stop 95. -/
theorem calcAvg_rLP100 : calcAvgRecord (calc95Record rLP100) = some rLP100' := by
  rw [calc95_rLP100,
    calcAvgRecord_blank ⟨10, 100, 1, .blank, none, some 95, .missing⟩ 95 rfl rfl
      (Or.inl (by norm_num)),
    pyInt_95]
  rfl

/-- Blend step on the gain-6 record: recommended stop 95. -/
theorem calcAvg_rGain6 : calcAvgRecord rGain6 = some rGain6' := by
  rw [calcAvgRecord_blank rGain6 95 rfl rfl (Or.inl (by norm_num [rGain6])), pyInt_95]
  rfl

/-- Blend step on the zero-priced-stop record: recommended stop 19. -/
theorem calcAvg_rZeroStop : calcAvgRecord rZeroStop = some rZeroStop' := by
  have h : pyRound (((38 : ℚ) + 0) / 2) 2 = 19 := pyRound_avg19
  rw [calcAvgRecord_num rZeroStop 0 38 rfl rfl, h, tiered_19]
  rfl

/-- Full calculation on the 1052.65 record: recommended stop 1000. -/
theorem calcAvg_rX : calcAvgRecord (calc95Record rX) = some rX' := by
  rw [calc95_rX,
    calcAvgRecord_num ⟨10, 105265/100, 1, .num (100004/100), some 1,
      some (100002/100), .missing⟩ (100004/100) (100002/100) rfl rfl,
    pyRound_avgX, tiered_X]
  rfl

/-! ### The claims -/

/-- C1 counterexample: the orders line for `ZZZ` fully matches the stop-quote
pattern, the symbol is absent from the (empty) holdings dict, and the parser
crashes with a `KeyError` instead of creating a new record non-fatally. -/
theorem C1_counterexample :
    matchOrder ordLine = some (zzz, ("10").toList, ("50.00").toList) ∧
    extract_orders [ordLine] [] = .keyError zzz := by
  constructor
  · decide
  · decide

/-- C1 (amended): for every orders-file line that fully matches the
stop-quote pattern with a symbol absent from the holdings mapping, the orders
parser raises an uncaught `KeyError` (fatal abnormal termination); no new
record is created. -/
theorem C1_theorem (line : List Char) (d : StockDict) (t h : List TSym)
    (s q p : List Char) (hm : matchOrder line = some (s, q, p))
    (hl : lookup s d = none) :
    ordersStep (t, h, d) line = .error (.keyError s) ∧
    extract_orders [line] d = .keyError s := by
  have hstep : ∀ t' h' : List TSym, ordersStep (t', h', d) line = .error (.keyError s) := by
    intro t' h'
    unfold ordersStep
    simp only []
    rw [hm]
    simp only []
    rw [hl]
  refine ⟨hstep t h, ?_⟩
  unfold extract_orders
  rw [List.foldlM_cons, hstep [] []]
  rfl

/-- C1 witness: the amended statement instantiated at the concrete `ZZZ`
orders line against an empty holdings dict. -/
theorem C1_witness :
    ordersStep ([], [], []) ordLine = .error (.keyError zzz) ∧
    extract_orders [ordLine] [] = .keyError zzz :=
  C1_theorem ordLine [] [] [] zzz (("10").toList) (("50.00").toList)
    (by decide) (by decide)

/-- C2 counterexample: a holdings file repeating one full-record line twice
has equally many bare-symbol matches and full-record matches (two each), yet
the parser still exits fatally, refuting the claimed if-and-only-if. -/
theorem C2_counterexample :
    (bareTally file2).length = fullCount file2 ∧
    isFatal (extract_stocks file2) = true := by
  constructor
  · decide
  · decide

/-- C2 (amended): provided no captured field fails float conversion, the
holdings parser terminates with non-zero status iff the bare-symbol tally
length differs from the number of distinct symbols stored from full-record
matches; on mismatch it reports the difference of the tally set minus the
stored-key set; and a file with one symbol-row and zero full-record rows
exits fatally with reported difference exactly that symbol. -/
theorem C2_theorem :
    (∀ (lines : List (List Char)) (t : List TSym) (d : StockDict),
      holdingsScan lines = some (t, d) →
      ((isFatal (extract_stocks lines) = true ↔ d.length ≠ t.length) ∧
        (d.length ≠ t.length →
          extract_stocks lines = .reconError t (keys d) (setDiff t (keys d))))) ∧
    extract_stocks [symLine] = .reconError [aapl] [] [aapl] := by
  constructor
  · intro lines t d h
    constructor
    · unfold extract_stocks
      rw [h]
      simp only []
      by_cases hd : d.length ≠ t.length
      · rw [if_pos hd]
        simp [isFatal, hd]
      · rw [if_neg hd]
        simp [isFatal, hd]
    · intro hd
      unfold extract_stocks
      rw [h]
      simp only []
      rw [if_pos hd]
  · decide

/-- C2 witness: the amended reconciliation statement instantiated at the
one-symbol-row file. -/
theorem C2_witness :
    ((isFatal (extract_stocks [symLine]) = true ↔
      ([] : StockDict).length ≠ [aapl].length) ∧
    (([] : StockDict).length ≠ [aapl].length →
      extract_stocks [symLine] =
        .reconError [aapl] (keys []) (setDiff [aapl] (keys [])))) :=
  C2_theorem.1 [symLine] [aapl] [] (by decide)

/-- C3: the calculator produces a recommended stop iff the gain is at least
+5, at most −5, or an existing stop is present; records with no existing stop
and gain strictly between −5 and 5 keep the recommendation absent. -/
theorem C3_theorem (r r' : StockRecord) (h : calcAvgRecord r = some r') :
    (r'.newStop.isNum = true ↔
      (r.gain ≥ 5 ∨ r.gain ≤ -5 ∨ r.existStop.isNum = true)) ∧
    (r.existStop = .blank → -5 < r.gain → r.gain < 5 → r'.newStop = .blank) := by
  by_cases hm : r.existStop = .missing
  · unfold calcAvgRecord at h
    rw [if_pos hm] at h
    exact absurd h (by simp)
  · by_cases hel : r.gain ≥ 5 ∨ r.gain ≤ -5 ∨ r.existStop ≠ .blank
    · unfold calcAvgRecord at h
      rw [if_neg hm, if_pos hel] at h
      cases hc : r.stop95 with
      | none =>
        rw [hc] at h
        exact absurd h (by simp)
      | some c =>
        rw [hc] at h
        cases hes : r.existStop with
        | missing => exact absurd hes hm
        | blank =>
          rw [hes] at h
          simp only [Option.some.injEq] at h
          subst h
          constructor
          · constructor
            · intro _
              rcases hel with h5 | h5 | h5
              · exact Or.inl h5
              · exact Or.inr (Or.inl h5)
              · exact absurd hes h5
            · intro _
              rfl
          · intro _ h1 h2
            rcases hel with h5 | h5 | h5
            · linarith
            · linarith
            · exact absurd hes h5
        | num e =>
          rw [hes] at h
          simp only [Option.some.injEq] at h
          subst h
          constructor
          · constructor
            · intro _
              exact Or.inr (Or.inr rfl)
            · intro _
              rfl
          · intro hb _ _
            exact absurd hb (by simp)
    · unfold calcAvgRecord at h
      rw [if_neg hm, if_neg hel] at h
      simp only [Option.some.injEq] at h
      subst h
      push_neg at hel
      obtain ⟨h5, h6, h7⟩ := hel
      constructor
      · constructor
        · intro habs
          simp [PyVal.isNum] at habs
        · intro hr
          rcases hr with hx | hx | hx
          · exact absurd hx (not_le.mpr h5)
          · exact absurd hx (not_le.mpr h6)
          · rw [h7] at hx
            simp [PyVal.isNum] at hx
      · intro _ _ _
        rfl

/-- C3 witness: the eligibility statement instantiated at a gain-6 record
with no existing stop. -/
theorem C3_witness :
    ((rGain6'.newStop.isNum = true ↔
      (rGain6.gain ≥ 5 ∨ rGain6.gain ≤ -5 ∨ rGain6.existStop.isNum = true)) ∧
    (rGain6.existStop = .blank → -5 < rGain6.gain → rGain6.gain < 5 →
      rGain6'.newStop = .blank)) :=
  C3_theorem rGain6 rGain6' calcAvg_rGain6

/-- C4: with an existing stop present, the recommended stop is the 2-decimal
rounded average of the candidate and existing stops, tier-reduced (integer at
or above 1000, one decimal at or above 50, two decimals otherwise); in
particular last price 2000.00 with existing stop 1850.00 yields 1875, and
last price 60.00 with existing stop 55.00 yields 56. -/
theorem C4_theorem (r r' : StockRecord) (c e : ℚ) (h : calcAvgRecord r = some r')
    (he : r.existStop = .num e) (hc : r.stop95 = some c) :
    r'.newStop = .num (tieredReduce (pyRound ((c + e) / 2) 2)) ∧
    calcAvgRecord (calc95Record rLP2000) = some rLP2000' ∧
    rLP2000'.newStop = .num 1875 ∧
    calcAvgRecord (calc95Record rLP60) = some rLP60' ∧
    rLP60'.newStop = .num 56 := by
  refine ⟨?_, calcAvg_rLP2000, rfl, calcAvg_rLP60, rfl⟩
  rw [calcAvgRecord_num r e c he hc] at h
  simp only [Option.some.injEq] at h
  rw [← h]

/-- C4 witness: the blend-and-reduce statement instantiated at the 2000.00
scenario record. -/
theorem C4_witness :
    rLP2000'.newStop = .num (tieredReduce (pyRound (((1900 : ℚ) + 1850) / 2) 2)) ∧
    calcAvgRecord (calc95Record rLP2000) = some rLP2000' ∧
    rLP2000'.newStop = .num 1875 ∧
    calcAvgRecord (calc95Record rLP60) = some rLP60' ∧
    rLP60'.newStop = .num 56 :=
  C4_theorem (calc95Record rLP2000) rLP2000' 1900 1850 calcAvg_rLP2000
    (by rw [calc95_rLP2000]) (by rw [calc95_rLP2000])

/-- C5: with the existing stop absent, the recommended stop is the truncation
of the candidate stop (which on nonnegative values is the floor); in
particular last price 100.00 with no existing stop yields candidate 95.00 and
recommendation 95. -/
theorem C5_theorem (r r' : StockRecord) (c : ℚ) (h : calcAvgRecord r = some r')
    (hb : r.existStop = .blank) (hc : r.stop95 = some c)
    (hel : r.gain ≥ 5 ∨ r.gain ≤ -5) :
    r'.newStop = .num (pyInt c : ℚ) ∧
    (0 ≤ c → pyInt c = ⌊c⌋) ∧
    calcAvgRecord (calc95Record rLP100) = some rLP100' ∧
    rLP100'.newStop = .num 95 := by
  refine ⟨?_, fun h0 => pyInt_of_nonneg c h0, calcAvg_rLP100, rfl⟩
  rw [calcAvgRecord_blank r c hb hc hel] at h
  simp only [Option.some.injEq] at h
  rw [← h]

/-- C5 witness: the truncation statement instantiated at the 100.00 scenario
record. -/
theorem C5_witness :
    rLP100'.newStop = .num (pyInt 95 : ℚ) ∧
    ((0 : ℚ) ≤ 95 → pyInt 95 = ⌊(95 : ℚ)⌋) ∧
    calcAvgRecord (calc95Record rLP100) = some rLP100' ∧
    rLP100'.newStop = .num 95 :=
  C5_theorem (calc95Record rLP100) rLP100' 95 calcAvg_rLP100
    (by rw [calc95_rLP100]) (by rw [calc95_rLP100])
    (Or.inl (by rw [calc95_rLP100]; norm_num))

/-- C6: for every record, the candidate stop is `round(lastPrice * 0.95, 2)`,
computed for all records of the mapping, and depending only on the last
price (independent of gain and existing stop). -/
theorem C6_theorem :
    (∀ r : StockRecord,
      (calc95Record r).stop95 = some (pyRound (r.lastPrice * (19/20)) 2)) ∧
    (∀ d : StockDict,
      calc_95stop_quote d = d.map (fun kv => (kv.1, calc95Record kv.2))) ∧
    (∀ r₁ r₂ : StockRecord, r₁.lastPrice = r₂.lastPrice →
      (calc95Record r₁).stop95 = (calc95Record r₂).stop95) := by
  refine ⟨fun r => rfl, fun d => rfl, fun r₁ r₂ h12 => ?_⟩
  show some (pyRound (r₁.lastPrice * (19/20)) 2) =
    some (pyRound (r₂.lastPrice * (19/20)) 2)
  rw [h12]

/-- C6 witness: the candidate-stop statement instantiated at concrete
records; `rLP2000` and `rGain6` share a last price only with themselves. -/
theorem C6_witness :
    ((calc95Record rLP2000).stop95 = some (pyRound (rLP2000.lastPrice * (19/20)) 2)) ∧
    (calc_95stop_quote [(aapl, recAAPL)] =
      [(aapl, recAAPL)].map (fun kv => (kv.1, calc95Record kv.2))) ∧
    ((calc95Record rLP100).stop95 = (calc95Record rLP100).stop95) :=
  ⟨C6_theorem.1 rLP2000, C6_theorem.2.1 [(aapl, recAAPL)],
    C6_theorem.2.2 rLP100 rLP100 rfl⟩

/-- C7 counterexample: for the 1052.65 record the candidate stop is 1000.02
and the existing stop 1000.04, but the computed recommendation 1000 lies
strictly below the minimum of the two, refuting the claimed interval bound. -/
theorem C7_counterexample :
    calcAvgRecord (calc95Record rX) = some rX' ∧
    (calc95Record rX).stop95 = some (100002/100 : ℚ) ∧
    rX.existStop = .num (100004/100 : ℚ) ∧
    rX'.newStop = .num 1000 ∧
    (1000 : ℚ) < min (100002/100 : ℚ) (100004/100 : ℚ) := by
  refine ⟨calcAvg_rX, by rw [calc95_rX], rfl, rfl, ?_⟩
  rw [min_eq_left (by norm_num : (100002/100 : ℚ) ≤ 100004/100)]
  norm_num

/-- C7 (amended): with an existing stop present and both values at cent
precision, the 2-decimal rounded average lies between the minimum and maximum
of candidate and existing stop inclusive; the final recommendation, after the
tiered precision reduction, can leave that interval only downward by less
than 1 (integer truncation) or upward by at most 1/20 (one-decimal
rounding). -/
theorem C7_theorem (r r' : StockRecord) (c e : ℚ) (cm em : ℤ)
    (h : calcAvgRecord r = some r') (he : r.existStop = .num e)
    (hc : r.stop95 = some c) (hcm : c = (cm : ℚ)/100) (hem : e = (em : ℚ)/100) :
    (min c e ≤ pyRound ((c + e) / 2) 2 ∧ pyRound ((c + e) / 2) 2 ≤ max c e) ∧
    (∃ v : ℚ, r'.newStop = .num v ∧ min c e - 1 < v ∧ v ≤ max c e + 1/20) := by
  have hmem : min c e ≤ pyRound ((c + e) / 2) 2 ∧
      pyRound ((c + e) / 2) 2 ≤ max c e := by
    subst hcm
    subst hem
    exact pyRound_avg_cents cm em
  refine ⟨hmem, tieredReduce (pyRound ((c + e) / 2) 2), ?_, ?_, ?_⟩
  · rw [calcAvgRecord_num r e c he hc] at h
    simp only [Option.some.injEq] at h
    rw [← h]
  · unfold tieredReduce
    split
    · rename_i h1000
      rw [pyInt_of_nonneg _ (by linarith)]
      have hfl := Int.sub_one_lt_floor (pyRound ((c + e) / 2) 2)
      linarith [hmem.1]
    · split
      · have hlow := le_pyRound (pyRound ((c + e) / 2) 2) 1
        norm_num at hlow
        linarith [hmem.1]
      · linarith [hmem.1]
  · unfold tieredReduce
    split
    · rename_i h1000
      rw [pyInt_of_nonneg _ (by linarith)]
      have hfl := Int.floor_le (pyRound ((c + e) / 2) 2)
      linarith [hmem.2]
    · split
      · have hup := pyRound_le (pyRound ((c + e) / 2) 2) 1
        norm_num at hup
        linarith [hmem.2]
      · linarith [hmem.2]

/-- C7 witness: the amended interval statement instantiated at the 2000.00
scenario record. -/
theorem C7_witness :
    ((min (1900 : ℚ) 1850 ≤ pyRound (((1900 : ℚ) + 1850) / 2) 2 ∧
      pyRound (((1900 : ℚ) + 1850) / 2) 2 ≤ max (1900 : ℚ) 1850)) ∧
    (∃ v : ℚ, rLP2000'.newStop = .num v ∧ min (1900 : ℚ) 1850 - 1 < v ∧
      v ≤ max (1900 : ℚ) 1850 + 1/20) :=
  C7_theorem (calc95Record rLP2000) rLP2000' 1900 1850 190000 185000 calcAvg_rLP2000
    (by rw [calc95_rLP2000]) (by rw [calc95_rLP2000]) (by norm_num) (by norm_num)

/-- C8: the sold/flat holdings line with dash sentinels in the gain and
unit-cost fields is normalised to explicit zero fields before matching (the
raw line does not match the full-record pattern, the normalised line does),
and it parses into a valid record with gain percent 0.0. -/
theorem C8_theorem :
    normalizeLine soldLine = soldLineNormalized ∧
    matchUnitCost soldLine = none ∧
    matchUnitCost (normalizeLine soldLine) =
      some (aapl, ("+0.0").toList, ("0").toList, ("100.00").toList) ∧
    extract_stocks [soldLine] = .ok [(aapl, recSold)] ∧
    recSold.gain = 0 := by
  refine ⟨by decide, by decide, by decide, extract_stocks_sold, rfl⟩

/-- C9: when a symbol occurs in two or more full-record matches, the
holdings parser exits fatally even though the bare-symbol match count equals
the full-record match count, because the dict stores only distinct symbols
while the tally keeps multiplicity. -/
theorem C9_theorem (lines : List (List Char)) (t : List TSym) (d : StockDict)
    (hscan : holdingsScan lines = some (t, d))
    (heq : (bareTally lines).length = fullCount lines)
    (hdup : ∃ s, 2 ≤ (fullSyms lines).count s) :
    isFatal (extract_stocks lines) = true := by
  obtain ⟨ht, hk⟩ := holdingsScan_aux lines [] [] t d hscan
  have hlt : (keys d).length < (fullSyms lines).length := by
    have h1 := length_addKeys_lt_of_dup (fullSyms lines) hdup
    rw [hk]
    simpa [keys] using h1
  have hfc : (fullSyms lines).length = fullCount lines := by
    simp [fullSyms, fullCount]
  have hdlen : d.length = (keys d).length := by
    simp [keys]
  have hne : d.length ≠ t.length := by
    rw [ht]
    simp only [List.nil_append]
    omega
  unfold extract_stocks
  rw [hscan]
  simp only []
  rw [if_pos hne]
  rfl

/-- C9 witness: the duplicate-symbol statement instantiated at the file that
repeats one full-record line twice. -/
theorem C9_witness : isFatal (extract_stocks file2) = true :=
  C9_theorem file2 [aapl, aapl] [(aapl, recAAPL)] holdingsScan_file2 (by decide)
    ⟨aapl, by decide⟩

/-- C10: a record whose existing stop parses to 0.00 is treated as having a
stop present — the value 0.00 differs from the empty-string sentinel, the
record gets a recommendation regardless of its gain, and the recommendation
is the tier-reduced average of the candidate stop and 0.00. -/
theorem C10_theorem (r r' : StockRecord) (h : calcAvgRecord r = some r')
    (h0 : r.existStop = .num 0) :
    PyVal.num 0 ≠ PyVal.blank ∧
    r'.newStop.isNum = true ∧
    (∀ c : ℚ, r.stop95 = some c →
      r'.newStop = .num (tieredReduce (pyRound ((c + 0) / 2) 2))) := by
  refine ⟨by simp, ?_, ?_⟩
  · cases hc : r.stop95 with
    | none =>
      unfold calcAvgRecord at h
      rw [h0, hc, if_neg (by simp), if_pos (Or.inr (Or.inr (by simp)))] at h
      exact absurd h (by simp)
    | some c =>
      rw [calcAvgRecord_num r 0 c h0 hc] at h
      simp only [Option.some.injEq] at h
      rw [← h]
      rfl
  · intro c hc
    rw [calcAvgRecord_num r 0 c h0 hc] at h
    simp only [Option.some.injEq] at h
    rw [← h]

/-- C10 witness: the zero-priced-stop statement instantiated at a zero-gain
record with candidate stop 38. -/
theorem C10_witness :
    PyVal.num 0 ≠ PyVal.blank ∧
    rZeroStop'.newStop.isNum = true ∧
    (∀ c : ℚ, rZeroStop.stop95 = some c →
      rZeroStop'.newStop = .num (tieredReduce (pyRound ((c + 0) / 2) 2))) :=
  C10_theorem rZeroStop rZeroStop' calcAvg_rZeroStop rfl
